import Mathlib

/-
Verification of the synonym-map control-plane service (src/main.py).

Strings of the Python program are modelled as `List Char`. The remote
search-index Gateway is modelled as an explicit state (`GW`) holding the
indexes and the synonym maps it owns; each endpoint body is a function from
that state (plus the request fields) to a response, the new state, and the
list of Gateway calls it performed. Fallible Gateway calls are modelled by
lookups that return `Option`, and the per-endpoint catch-all boundary by the
explicit 500-response branches of the endpoint functions.
-/

namespace SynApp

/-- Whitespace predicate of Python str.strip (the ASCII whitespace set). -/
def pyIsSpace (c : Char) : Bool :=
  c = ' ' || c = '\t' || c = '\n' || c = '\r' || c = '\x0B' || c = '\x0C'

/-- Python str.strip modelled on a list of characters: drop whitespace from
both ends. -/
def pyStrip (s : List Char) : List Char :=
  ((s.dropWhile pyIsSpace).reverse.dropWhile pyIsSpace).reverse

/-- Python s.split(sep) for a one-character separator: split at every
occurrence of sep, keeping empty pieces; the empty string yields one empty
piece. -/
def pySplit (sep : Char) : List Char → List (List Char)
  | [] => [[]]
  | c :: cs =>
    if c = sep then [] :: pySplit sep cs
    else
      match pySplit sep cs with
      | [] => [[c]]
      | p :: ps => (c :: p) :: ps

/-- Python sep.join(xs). -/
def pyJoin (sep : List Char) : List (List Char) → List Char
  | [] => []
  | [x] => x
  | x :: y :: xs => x ++ sep ++ pyJoin sep (y :: xs)

/-- encode: the wire rules built by the create and update endpoints
(src/main.py lines 278-280 and 347-349): one rule per group, the terms of
the group joined with comma-space. -/
def encode (groups : List (List (List Char))) : List (List Char) :=
  groups.map (fun g => pyJoin [',', ' '] g)

/-- decode: the groups rebuilt by the list endpoints (src/main.py lines
209-213 and 256-258): each rule is split on the comma and every piece is
stripped of surrounding whitespace. -/
def decode (rules : List (List Char)) : List (List (List Char)) :=
  rules.map (fun r => (pySplit ',' r).map pyStrip)

/-- Python str.lower, applied character-wise. -/
def pyLower (s : List Char) : List Char := s.map Char.toLower

/-- A field of a search index: a name and, possibly, the list of synonym-map
names attached to it (None in the SDK when the field has none). -/
structure SearchField where
  name : List Char
  synonym_map_names : Option (List (List Char))
  deriving DecidableEq

/-- An index definition as the Gateway returns it. -/
structure SearchIndex where
  name : List Char
  fields : List SearchField
  deriving DecidableEq

/-- A synonym map object held by the Gateway: its name and its wire rules. -/
structure SynMap where
  name : List Char
  synonyms : List (List Char)
  deriving DecidableEq

/-- The state of the remote search-index Gateway. -/
structure GW where
  indexes : List SearchIndex
  maps : List SynMap
  deriving DecidableEq

/-- Gateway get-index, as a lookup by name. -/
def lookupIndex (gw : GW) (n : List Char) : Option SearchIndex :=
  gw.indexes.find? (fun ix => ix.name == n)

/-- Gateway get-synonym-map, as a lookup by name. -/
def lookupMap (gw : GW) (n : List Char) : Option SynMap :=
  gw.maps.find? (fun m => m.name == n)

/-- The distinct validation failures raised by the request models of
src/main.py (lines 36-161), plus the length constraint carried by the
mapName field type. -/
inductive VErr where
  | indexNotFound
  | mapNameLength
  | mapNameNotLowercase
  | mapNotFound
  | emptySynonymList
  | shortSubList
  | emptyElement
  deriving DecidableEq

/-- The length constraint on the mapName field type (line 38): between 1 and
10 characters. -/
def check_mapName_constr (v : List Char) : Except VErr (List Char) :=
  if 1 ≤ v.length ∧ v.length ≤ 10 then Except.ok v
  else Except.error VErr.mapNameLength

/-- The mapName field validator of the create and delete models (lines
52-57): the name must equal its own lowercase form. -/
def check_mapName (v : List Char) : Except VErr (List Char) :=
  if pyLower v = v then Except.ok v else Except.error VErr.mapNameNotLowercase

/-- One group of the submitted synonym list (lines 65-75): the group must
have more than one element, and every element must be a non-empty string. -/
def check_group (g : List (List Char)) : Except VErr Unit :=
  if ¬ 1 < g.length then Except.error VErr.shortSubList
  else if g.any (fun t => t.isEmpty) then Except.error VErr.emptyElement
  else Except.ok ()

/-- The group-by-group walk of the synonymList validator, aborting at the
first offending group. -/
def check_groups : List (List (List Char)) → Except VErr Unit
  | [] => Except.ok ()
  | g :: gs =>
    match check_group g with
    | Except.error e => Except.error e
    | Except.ok _ => check_groups gs

/-- The synonymList field validator (lines 59-76): the list must be
non-empty, then every group is checked in order. -/
def check_synonym_list (v : List (List (List Char))) : Except VErr Unit :=
  if v = [] then Except.error VErr.emptySynonymList
  else check_groups v

/-- Errors of the indexName field (lines 42-50): the name must resolve at
the Gateway, otherwise this field contributes its not-found error. -/
def fieldErrors_indexName (gw : GW) (v : List Char) : List VErr :=
  match lookupIndex gw v with
  | some _ => []
  | none => [VErr.indexNotFound]

/-- Errors of the mapName field of the create and delete models (lines 38
and 52-57): the length constraint runs before the after-validator, and the
first failure inside the field wins. -/
def fieldErrors_mapName (v : List Char) : List VErr :=
  if ¬ (1 ≤ v.length ∧ v.length ≤ 10) then [VErr.mapNameLength]
  else if pyLower v ≠ v then [VErr.mapNameNotLowercase]
  else []

/-- Errors of the mapName field of the update model (lines 86 and 99-109):
the length constraint, then inside the validator the lowercase check and
the Gateway resolution, the first raise winning. -/
def fieldErrors_mapName_update (gw : GW) (v : List Char) : List VErr :=
  if ¬ (1 ≤ v.length ∧ v.length ≤ 10) then [VErr.mapNameLength]
  else if pyLower v ≠ v then [VErr.mapNameNotLowercase]
  else
    match lookupMap gw v with
    | some _ => []
    | none => [VErr.mapNotFound]

/-- Errors of the synonymList field (lines 59-76): the first raise inside
the validator function is this field's single error. -/
def fieldErrors_synonymList (v : List (List (List Char))) : List VErr :=
  match check_synonym_list v with
  | Except.ok _ => []
  | Except.error e => [e]

/-- Validation of a create request (the SynonymData model): every field is
validated independently and the errors are aggregated into one validation
failure, in field-declaration order indexName, mapName, synonymList; the
request is accepted exactly when the list is empty. -/
def validateSynonymData (gw : GW) (indexName mapName : List Char)
    (synonymList : List (List (List Char))) : List VErr :=
  fieldErrors_indexName gw indexName ++ fieldErrors_mapName mapName
    ++ fieldErrors_synonymList synonymList

/-- Validation of an update request (the UpdatedSynonymData model): as for
create, with the update variant of the mapName field. -/
def validateUpdatedSynonymData (gw : GW) (indexName mapName : List Char)
    (synonymList : List (List (List Char))) : List VErr :=
  fieldErrors_indexName gw indexName ++ fieldErrors_mapName_update gw mapName
    ++ fieldErrors_synonymList synonymList

/-- True when an Except value is a success. -/
def exceptOk {ε α : Type} : Except ε α → Bool
  | Except.ok _ => true
  | Except.error _ => false

/-- Acceptance of a mapName by the create/delete models: the length
constraint followed by the lowercase validator. -/
def mapNameAccepted (v : List Char) : Bool :=
  exceptOk (check_mapName_constr v >>= fun _ => check_mapName v)

/-- One record of a response data list: the full shape carries the index
name (SynonymData), the map-only shape leaves it out (ReadSynonymData). -/
structure RespEntry where
  indexName : Option (List Char)
  mapName : List Char
  synonymList : List (List (List Char))
  deriving DecidableEq

/-- The ResponseModel envelope of src/main.py lines 164-167. -/
structure Response where
  code : Nat
  message : List Char
  data : List RespEntry
  deriving DecidableEq

/-- The error response every endpoint returns from its catch-all boundary:
code 500, the stringified error as message, empty data. -/
def err500 (e : List Char) : Response :=
  { code := 500, message := e, data := [] }

/-- The message of the 200 success responses (status_codes 200). -/
def successMsg : List Char := String.toList "Success"

/-- Stringified Gateway error for a missing index. -/
def indexNotFoundMsg (n : List Char) : List Char :=
  String.toList "Index " ++ n ++ String.toList " was not found"

/-- Stringified Gateway error when creating a map whose name already
exists. -/
def mapExistsMsg (n : List Char) : List Char :=
  String.toList "Synonym map " ++ n ++ String.toList " already exists"

/-- Stringified Gateway error for a missing synonym map. -/
def mapMissingMsg (n : List Char) : List Char :=
  String.toList "Synonym map " ++ n ++ String.toList " was not found"

/-- Stringified Python TypeError raised by a membership test on None. -/
def noneIterMsg : List Char :=
  String.toList "argument of type NoneType is not iterable"

/-- The message of line 302: the map is already attached to the index. -/
def alreadyExistsMsg (mN iN : List Char) : List Char :=
  String.toList "Synonym map " ++ mN ++ String.toList " already exists in "
    ++ iN ++ String.toList " index"

/-- The message of line 334: the map was not found in the index. -/
def deleteNotFoundMsg (iN : List Char) : List Char :=
  String.toList "Synonym map not found in " ++ iN ++ String.toList " index"

/-- The Gateway calls an endpoint body can perform. -/
inductive GCall where
  | getIndex (name : List Char)
  | getSynonymMaps
  | getSynonymMap (name : List Char)
  | createSynonymMap (name : List Char) (synonyms : List (List Char))
  | createOrUpdateSynonymMap (name : List Char) (synonyms : List (List Char))
  | deleteSynonymMap (name : List Char)
  | createOrUpdateIndex (name : List Char)
  deriving DecidableEq

/-- True for the index-update Gateway call. -/
def isUpdateIndexCall : GCall → Bool
  | GCall.createOrUpdateIndex _ => true
  | _ => false

/-- Number of index-update Gateway calls in a call list. -/
def updateIndexCalls (calls : List GCall) : Nat :=
  (calls.filter isUpdateIndexCall).length

/-- Result of a mutating endpoint: its response, the Gateway state after it,
and the Gateway calls it performed. -/
structure EOut where
  resp : Response
  gw : GW
  calls : List GCall
  deriving DecidableEq

/-- Replace the index of the given name in the Gateway state
(create_or_update_index on an existing index). -/
def updateIndexIn (gw : GW) (ix : SearchIndex) : GW :=
  { gw with indexes := gw.indexes.map (fun i => if i.name == ix.name then ix else i) }

/-- The attach mutation the create endpoint applies to the configured field
(line 292): the map name is appended at the end of the association list. -/
def planAttachField (mapName : List Char) (ns : List (List Char)) :
    List (List Char) :=
  ns ++ [mapName]

/-- The detach mutation the delete endpoint applies to the configured field
(line 324, Python list.remove): the first occurrence of the map name is
removed. -/
def planDetachField (mapName : List Char) (ns : List (List Char)) :
    List (List Char) :=
  ns.erase mapName

/-- The field scan of the create endpoint (lines 286-293): every field whose
name equals the configured field name gets the map name appended unless it
is already present; a membership test against an absent (None) association
list raises. Returns the rewritten field list and the changed flag. -/
def attachScan (cfg mapName : List Char) :
    List SearchField → Except (List Char) (List SearchField × Bool)
  | [] => Except.ok ([], false)
  | f :: fs =>
    if f.name = cfg then
      match f.synonym_map_names with
      | none => Except.error noneIterMsg
      | some ns =>
        if mapName ∈ ns then
          match attachScan cfg mapName fs with
          | Except.error e => Except.error e
          | Except.ok (fs', c) => Except.ok (f :: fs', c)
        else
          match attachScan cfg mapName fs with
          | Except.error e => Except.error e
          | Except.ok (fs', _) =>
            Except.ok
              ({ f with synonym_map_names := some (planAttachField mapName ns) }
                :: fs', true)
    else
      match attachScan cfg mapName fs with
      | Except.error e => Except.error e
      | Except.ok (fs', c) => Except.ok (f :: fs', c)

/-- The field scan of the delete endpoint (lines 320-326): every field with
a present, non-empty association list, whose name equals the configured
field name and whose list contains the map name, gets the first occurrence
removed. Returns the rewritten field list and the changed flag. -/
def detachScan (cfg mapName : List Char) :
    List SearchField → List SearchField × Bool
  | [] => ([], false)
  | f :: fs =>
    let r := detachScan cfg mapName fs
    match f.synonym_map_names with
    | some ns =>
      if 0 < ns.length ∧ f.name = cfg ∧ mapName ∈ ns then
        ({ f with synonym_map_names := some (planDetachField mapName ns) }
          :: r.1, true)
      else (f :: r.1, r.2)
    | none => (f :: r.1, r.2)

/-- The create-synonym-map endpoint body (lines 267-306): fetch the index,
encode the groups, create the map at the Gateway (this fails when the name
already exists), scan the fields for the configured field, and persist the
index only when the scan changed it. Any raise is converted to the 500
envelope with the Gateway state reached so far. -/
def createSynonymMapE (cfg : List Char) (gw : GW) (iN mN : List Char)
    (sL : List (List (List Char))) : EOut :=
  match lookupIndex gw iN with
  | none => ⟨err500 (indexNotFoundMsg iN), gw, [GCall.getIndex iN]⟩
  | some index =>
    match lookupMap gw mN with
    | some _ =>
      ⟨err500 (mapExistsMsg mN), gw,
       [GCall.getIndex iN, GCall.createSynonymMap mN (encode sL)]⟩
    | none =>
      let gw1 : GW := ⟨gw.indexes, gw.maps ++ [⟨mN, encode sL⟩]⟩
      match attachScan cfg mN index.fields with
      | Except.error e =>
        ⟨err500 e, gw1,
         [GCall.getIndex iN, GCall.createSynonymMap mN (encode sL)]⟩
      | Except.ok (fields', changed) =>
        if changed then
          ⟨⟨200, successMsg, []⟩,
           updateIndexIn gw1 ⟨index.name, fields'⟩,
           [GCall.getIndex iN, GCall.createSynonymMap mN (encode sL),
            GCall.createOrUpdateIndex index.name]⟩
        else
          ⟨⟨200, alreadyExistsMsg mN iN, []⟩, gw1,
           [GCall.getIndex iN, GCall.createSynonymMap mN (encode sL)]⟩

/-- The delete-synonym-map endpoint body (lines 310-339): fetch the index,
delete the map at the Gateway unconditionally (this fails when the map does
not exist), scan the fields for the configured field, and persist the index
only when the scan changed it. -/
def deleteSynonymMapE (cfg : List Char) (gw : GW) (iN mN : List Char) : EOut :=
  match lookupIndex gw iN with
  | none => ⟨err500 (indexNotFoundMsg iN), gw, [GCall.getIndex iN]⟩
  | some index =>
    match lookupMap gw mN with
    | none =>
      ⟨err500 (mapMissingMsg mN), gw,
       [GCall.getIndex iN, GCall.deleteSynonymMap mN]⟩
    | some _ =>
      let gw1 : GW := ⟨gw.indexes, gw.maps.filter (fun m => !(m.name == mN))⟩
      let r := detachScan cfg mN index.fields
      if r.2 then
        ⟨⟨200, successMsg, []⟩,
         updateIndexIn gw1 ⟨index.name, r.1⟩,
         [GCall.getIndex iN, GCall.deleteSynonymMap mN,
          GCall.createOrUpdateIndex index.name]⟩
      else
        ⟨⟨200, deleteNotFoundMsg iN, []⟩, gw1,
         [GCall.getIndex iN, GCall.deleteSynonymMap mN]⟩

/-- Upsert of a synonym map (create_or_update_synonym_map). -/
def upsertMap (gw : GW) (m : SynMap) : GW :=
  if (lookupMap gw m.name).isSome then
    { gw with maps := gw.maps.map (fun x => if x.name == m.name then m else x) }
  else { gw with maps := gw.maps ++ [m] }

/-- The update-synonym-map endpoint body (lines 343-357): fetch the index,
encode the groups, upsert the map. No field reconciliation happens here. -/
def updateSynonymMapE (gw : GW) (iN mN : List Char)
    (sL : List (List (List Char))) : EOut :=
  match lookupIndex gw iN with
  | none => ⟨err500 (indexNotFoundMsg iN), gw, [GCall.getIndex iN]⟩
  | some _ =>
    ⟨⟨200, successMsg, []⟩, upsertMap gw ⟨mN, encode sL⟩,
     [GCall.getIndex iN, GCall.createOrUpdateSynonymMap mN (encode sL)]⟩

/-- The association lists a field contributes to the collection loop of the
list-by-index endpoint (lines 232-235): its names when the list is present
and non-empty, nothing otherwise. -/
def fieldMapNames (f : SearchField) : List (List Char) :=
  match f.synonym_map_names with
  | some ns => if 0 < ns.length then ns else []
  | none => []

/-- The collection loop of lines 232-235: the names of every field are
appended in field order. -/
def collectNames (fields : List SearchField) : List (List Char) :=
  fields.foldl (fun acc f => acc ++ fieldMapNames f) []

/-- Walk of OrderedDict.fromkeys: keep a key when it has not been seen. -/
def odGo (seen : List (List Char)) : List (List Char) → List (List Char)
  | [] => []
  | x :: xs => if x ∈ seen then odGo seen xs else x :: odGo (x :: seen) xs

/-- OrderedDict.fromkeys of line 238: deduplicate keeping the first
occurrence of each name, in order. -/
def odFromKeys (l : List (List Char)) : List (List Char) := odGo [] l

/-- Fetch every named synonym map in order (lines 241-243), raising at the
first name the Gateway does not know. -/
def fetchMaps (gw : GW) : List (List Char) → Except (List Char) (List SynMap)
  | [] => Except.ok []
  | n :: ns =>
    match lookupMap gw n with
    | none => Except.error (mapMissingMsg n)
    | some m =>
      match fetchMaps gw ns with
      | Except.error e => Except.error e
      | Except.ok ms => Except.ok (m :: ms)

/-- Stringified ValidationError raised when building a SynonymData record
from Gateway data (line 255) fails. -/
def synonymDataErrMsg : List Char :=
  String.toList "validation error for SynonymData"

/-- Stringified ValidationError raised when building a ReadSynonymData
record from Gateway data (line 198) fails. -/
def readSynonymDataErrMsg : List Char :=
  String.toList "validation error for ReadSynonymData"

/-- The SynonymData record construction of line 255: building the response
record re-runs the model validators on the Gateway-provided values, so the
indexName must resolve and the map name must satisfy the length constraint
and the lowercase check; any failure raises inside the try block. -/
def mkSynonymDataRecord (gw : GW) (iN : List Char) (m : SynMap) :
    Except (List Char) RespEntry :=
  if (lookupIndex gw iN).isNone then Except.error synonymDataErrMsg
  else if ¬ (1 ≤ m.name.length ∧ m.name.length ≤ 10) then
    Except.error synonymDataErrMsg
  else if pyLower m.name ≠ m.name then Except.error synonymDataErrMsg
  else Except.ok ⟨some iN, m.name, decode m.synonyms⟩

/-- The record-building loop of lines 254-258: one SynonymData record per
fetched map, in order, aborting at the first construction failure. -/
def mkRecords (gw : GW) (iN : List Char) :
    List SynMap → Except (List Char) (List RespEntry)
  | [] => Except.ok []
  | m :: ms =>
    match mkSynonymDataRecord gw iN m with
    | Except.error e => Except.error e
    | Except.ok r =>
      match mkRecords gw iN ms with
      | Except.error e => Except.error e
      | Except.ok rs => Except.ok (r :: rs)

/-- The get-synonymmap-by-aisearchindexname endpoint body (lines 224-263):
fetch the index, collect the map names of every field, deduplicate them
preserving first occurrence, fetch each map, and build one validated
SynonymData record per map, tagged with the queried index name. -/
def getByIndexE (gw : GW) (iN : List Char) : Response :=
  match lookupIndex gw iN with
  | none => err500 (indexNotFoundMsg iN)
  | some index =>
    match fetchMaps gw (odFromKeys (collectNames index.fields)) with
    | Except.error e => err500 e
    | Except.ok ms =>
      match mkRecords gw iN ms with
      | Except.error e => err500 e
      | Except.ok rs => { code := 200, message := successMsg, data := rs }

/-- The per-name loop of the get-all endpoint (lines 196-213): first the
ReadSynonymData record is built (line 198), whose mapName length constraint
can raise, then the map is fetched again by name and its rules decoded. -/
def getAllGo (gw : GW) : List (List Char) → Except (List Char) (List RespEntry)
  | [] => Except.ok []
  | n :: ns =>
    if ¬ (1 ≤ n.length ∧ n.length ≤ 10) then
      Except.error readSynonymDataErrMsg
    else
      match lookupMap gw n with
      | none => Except.error (mapMissingMsg n)
      | some m =>
        match getAllGo gw ns with
        | Except.error e => Except.error e
        | Except.ok rs => Except.ok (⟨none, n, decode m.synonyms⟩ :: rs)

/-- The get-all-synonymmaps endpoint body (lines 185-219): enumerate every
map name at the Gateway and assemble one record per name. -/
def getAllE (gw : GW) : Response :=
  match getAllGo gw (gw.maps.map (fun m => m.name)) with
  | Except.error e => err500 e
  | Except.ok rs => { code := 200, message := successMsg, data := rs }

/-- Configured field name used by the concrete test states. -/
def cfgW : List Char := String.toList "content"

/-- Concrete map name used by the test states. -/
def m1W : List Char := String.toList "m1"

/-- Second concrete map name used by the test states. -/
def m2W : List Char := String.toList "m2"

/-- Concrete index name used by the test states. -/
def idxNameW : List Char := String.toList "idx"

/-- Index whose configured field already holds m1. -/
def idxAttachedW : SearchIndex := ⟨idxNameW, [⟨cfgW, some [m1W]⟩]⟩

/-- Index whose configured field holds only m2. -/
def idxAbsentW : SearchIndex := ⟨idxNameW, [⟨cfgW, some [m2W]⟩]⟩

/-- Index whose configured field has no association list at all. -/
def idxNoneW : SearchIndex := ⟨idxNameW, [⟨cfgW, none⟩]⟩

/-- Gateway state holding idxAttachedW and no maps. -/
def gwAttachedW : GW := ⟨[idxAttachedW], []⟩

/-- Gateway state holding idxAbsentW and no maps. -/
def gwAbsentW : GW := ⟨[idxAbsentW], []⟩

/-- Gateway state holding idxNoneW and no maps. -/
def gwNoneW : GW := ⟨[idxNoneW], []⟩

/-- Gateway state holding idxAbsentW and the map m1. -/
def gwDeleteW : GW := ⟨[idxAbsentW], [⟨m1W, []⟩]⟩

/-- A second field name, different from the configured one. -/
def otherW : List Char := String.toList "other"

/-- Index with two fields: the configured field holds m1 and the other
field holds m2. -/
def idxTwoFieldsW : SearchIndex :=
  ⟨idxNameW, [⟨cfgW, some [m1W]⟩, ⟨otherW, some [m2W]⟩]⟩

/-- Gateway state holding idxTwoFieldsW together with the maps m1 and m2. -/
def gwTwoFieldsW : GW := ⟨[idxTwoFieldsW], [⟨m1W, []⟩, ⟨m2W, []⟩]⟩

/-- The envelope shape every endpoint answer takes: a 200-coded response,
or the 500 error envelope carrying the stringified error and empty data. -/
def envelopeOk (r : Response) : Prop :=
  r.code = 200 ∨ ∃ e, r = err500 e

lemma pySplit_ne_nil (sep : Char) (s : List Char) : pySplit sep s ≠ [] := by
  cases s with
  | nil => simp [pySplit]
  | cons c cs =>
    simp only [pySplit]
    split
    · simp
    · cases h : pySplit sep cs with
      | nil => simp
      | cons p ps => simp

lemma pySplit_no_sep {sep : Char} {s : List Char} (h : sep ∉ s) :
    pySplit sep s = [s] := by
  induction s with
  | nil => rfl
  | cons c cs ih =>
    have hc : ¬ c = sep := fun hcc => h (hcc ▸ List.mem_cons_self c cs)
    have hcs : sep ∉ cs := fun hm => h (List.mem_cons_of_mem c hm)
    simp only [pySplit, if_neg hc, ih hcs]

lemma pySplit_append_sep {sep : Char} {a : List Char} (b : List Char)
    (h : sep ∉ a) :
    pySplit sep (a ++ sep :: b) = a :: pySplit sep b := by
  induction a with
  | nil => simp [pySplit]
  | cons c a' ih =>
    have hc : ¬ c = sep := fun hcc => h (hcc ▸ List.mem_cons_self c a')
    have ha' : sep ∉ a' := fun hm => h (List.mem_cons_of_mem c hm)
    simp only [List.cons_append, pySplit, if_neg hc]
    rw [show a'.append (sep :: b) = a' ++ sep :: b from rfl, ih ha']

lemma pyStrip_cons_space (s : List Char) : pyStrip (' ' :: s) = pyStrip s := by
  simp [pyStrip, List.dropWhile, pyIsSpace]

lemma map_pyStrip_pySplit_space (s : List Char) :
    (pySplit ',' (' ' :: s)).map pyStrip = (pySplit ',' s).map pyStrip := by
  cases hs : pySplit ',' s with
  | nil => exact absurd hs (pySplit_ne_nil ',' s)
  | cons p ps =>
    have hsp : ¬ (' ' : Char) = ',' := by decide
    simp only [pySplit, if_neg hsp, hs, List.map_cons, pyStrip_cons_space]

lemma decode_one (ts : List (List Char)) (hne : ts ≠ [])
    (ht : ∀ t ∈ ts, (',' ∉ t) ∧ pyStrip t = t) :
    (pySplit ',' (pyJoin [',', ' '] ts)).map pyStrip = ts := by
  induction ts with
  | nil => exact absurd rfl hne
  | cons t ts ih =>
    cases ts with
    | nil =>
      have h1 := ht t (List.mem_cons_self t [])
      simp [pyJoin, pySplit_no_sep h1.1, h1.2]
    | cons t2 ts2 =>
      have h1 := ht t (List.mem_cons_self t _)
      have hjoin : pyJoin [',', ' '] (t :: t2 :: ts2)
          = t ++ ',' :: ' ' :: pyJoin [',', ' '] (t2 :: ts2) := by
        simp [pyJoin]
      rw [hjoin, pySplit_append_sep _ h1.1, List.map_cons,
        map_pyStrip_pySplit_space, h1.2,
        ih (by simp) (fun u hu => ht u (List.mem_cons_of_mem t hu))]

/-- Claim C1: for every list of equivalence groups whose terms contain no
comma and carry no surrounding whitespace (and whose groups are non-empty,
as every equivalence group is), decoding the encoding returns the original
group list. -/
theorem C1_decode_encode (g : List (List (List Char)))
    (hne : ∀ grp ∈ g, grp ≠ [])
    (ht : ∀ grp ∈ g, ∀ t ∈ grp, (',' ∉ t) ∧ pyStrip t = t) :
    decode (encode g) = g := by
  induction g with
  | nil => rfl
  | cons grp gs ih =>
    simp only [encode, decode, List.map_cons, List.map_map] at ih ⊢
    rw [decode_one grp (hne grp (List.mem_cons_self grp gs))
      (ht grp (List.mem_cons_self grp gs))]
    have ihr := ih (fun x hx => hne x (List.mem_cons_of_mem grp hx))
      (fun x hx => ht x (List.mem_cons_of_mem grp hx))
    simp only [encode, decode, List.map_map] at ihr
    rw [ihr]

/-- Witness for C1 at a concrete group list. -/
theorem C1_decode_encode_witness :
    decode (encode [[String.toList "run", String.toList "sprint",
        String.toList "jog"], [String.toList "a", String.toList "b"]])
      = [[String.toList "run", String.toList "sprint", String.toList "jog"],
         [String.toList "a", String.toList "b"]] :=
  C1_decode_encode _ (by decide) (by decide)

lemma pyLower_eq_self (s : List Char) :
    pyLower s = s ↔ ∀ c ∈ s, Char.toLower c = c := by
  induction s with
  | nil => simp [pyLower]
  | cons c cs ih =>
    simp only [pyLower, List.map_cons, List.cons.injEq, List.mem_cons] at ih ⊢
    constructor
    · rintro ⟨h1, h2⟩ x hx
      rcases hx with rfl | hx
      · exact h1
      · exact (ih.mp h2) x hx
    · intro h
      exact ⟨h c (Or.inl rfl), ih.mpr (fun x hx => h x (Or.inr hx))⟩

/-- Claim C4: mapName validation rejects a string exactly when it contains a
character changed by lowercasing or its length lies outside the range 1 to
10, and accepts every other string. -/
theorem C4_mapName_validation (s : List Char) :
    mapNameAccepted s = false ↔
      ((∃ c ∈ s, Char.toLower c ≠ c) ∨ s.length < 1 ∨ 10 < s.length) := by
  unfold mapNameAccepted check_mapName_constr check_mapName
  by_cases hlen : 1 ≤ s.length ∧ s.length ≤ 10
  · rw [if_pos hlen]
    by_cases hlow : pyLower s = s
    · rw [if_pos hlow]
      have hall := (pyLower_eq_self s).mp hlow
      simp only [Bind.bind, Except.bind, exceptOk]
      constructor
      · intro h
        exact Bool.noConfusion h
      · rintro (⟨c, hc, hne⟩ | h | h)
        · exact absurd (hall c hc) hne
        · omega
        · omega
    · rw [if_neg hlow]
      have hex : ∃ c ∈ s, Char.toLower c ≠ c := by
        by_contra hno
        push_neg at hno
        exact hlow ((pyLower_eq_self s).mpr hno)
      exact iff_of_true rfl (Or.inl hex)
  · rw [if_neg hlen]
    have hor : s.length < 1 ∨ 10 < s.length := by omega
    exact iff_of_true rfl (Or.inr hor)

lemma check_group_ok {g : List (List Char)} {u : Unit}
    (h : check_group g = Except.ok u) :
    1 < g.length ∧ ∀ t ∈ g, t ≠ [] := by
  unfold check_group at h
  by_cases h1 : ¬ 1 < g.length
  · rw [if_pos h1] at h
    exact Except.noConfusion h
  · rw [if_neg h1] at h
    by_cases h2 : g.any (fun t => t.isEmpty)
    · rw [if_pos h2] at h
      exact Except.noConfusion h
    · push_neg at h1
      refine ⟨h1, ?_⟩
      intro t ht hte
      apply h2
      exact List.any_eq_true.mpr ⟨t, ht, by simp [hte]⟩

lemma check_groups_short {gs : List (List (List Char))}
    (h : ∃ g ∈ gs, g.length < 2) : exceptOk (check_groups gs) = false := by
  induction gs with
  | nil => rcases h with ⟨g, hg, _⟩; exact absurd hg (List.not_mem_nil g)
  | cons g gs ih =>
    simp only [check_groups]
    cases hc : check_group g with
    | error e => simp [exceptOk]
    | ok u =>
      rcases h with ⟨g0, hg0, hlen⟩
      rcases List.mem_cons.mp hg0 with rfl | hg0'
      · exact absurd (check_group_ok hc).1 (by omega)
      · exact ih ⟨g0, hg0', hlen⟩

lemma check_groups_empty_term {gs : List (List (List Char))}
    (h : ∃ g ∈ gs, ∃ t ∈ g, t = []) : exceptOk (check_groups gs) = false := by
  induction gs with
  | nil => rcases h with ⟨g, hg, _⟩; exact absurd hg (List.not_mem_nil g)
  | cons g gs ih =>
    simp only [check_groups]
    cases hc : check_group g with
    | error e => simp [exceptOk]
    | ok u =>
      rcases h with ⟨g0, hg0, t, ht, hte⟩
      rcases List.mem_cons.mp hg0 with rfl | hg0'
      · exact absurd hte ((check_group_ok hc).2 t ht)
      · exact ih ⟨g0, hg0', t, ht, hte⟩

lemma check_groups_first_error {gs1 : List (List (List Char))}
    {g : List (List Char)} (gs2 : List (List (List Char))) {e : VErr}
    (hok : ∀ g' ∈ gs1, check_group g' = Except.ok ())
    (herr : check_group g = Except.error e) :
    check_groups (gs1 ++ g :: gs2) = Except.error e := by
  induction gs1 with
  | nil =>
    simp only [List.nil_append, check_groups, herr]
  | cons g1 gs1 ih =>
    simp only [List.cons_append, check_groups,
      hok g1 (List.mem_cons_self g1 gs1)]
    exact ih (fun x hx => hok x (List.mem_cons_of_mem g1 hx))

/-- Counterexample to claim C5 as stated: a request whose second group has a
single element is rejected, but with the empty-term error of the first
group, not with the group-cardinality error. -/
theorem C5_counterexample :
    check_synonym_list
        [[String.toList "a", String.toList ""], [String.toList "x"]]
      = Except.error VErr.emptyElement ∧
    VErr.emptyElement ≠ VErr.shortSubList :=
  ⟨rfl, by decide⟩

/-- Claim C5 amended: any group list containing a short group is rejected
as a whole, regardless of the other groups; the reported error is that of
the first failing group in order: the group-cardinality error when that
group has fewer than two elements, the term error when it has at least two
elements and an empty term. The empty group list is rejected, and any group
containing an empty-string term is rejected as a whole. -/
theorem C5_group_rejection (v : List (List (List Char))) :
    ((∃ g ∈ v, g.length < 2) → exceptOk (check_synonym_list v) = false) ∧
    (v = [] → check_synonym_list v = Except.error VErr.emptySynonymList) ∧
    ((∃ g ∈ v, ∃ t ∈ g, t = []) → exceptOk (check_synonym_list v) = false) ∧
    (∀ gs1 g gs2, v = gs1 ++ g :: gs2 →
      (∀ g' ∈ gs1, check_group g' = Except.ok ()) → g.length < 2 →
      check_synonym_list v = Except.error VErr.shortSubList) ∧
    (∀ gs1 g gs2, v = gs1 ++ g :: gs2 →
      (∀ g' ∈ gs1, check_group g' = Except.ok ()) → 1 < g.length →
      (∃ t ∈ g, t = []) →
      check_synonym_list v = Except.error VErr.emptyElement) := by
  refine ⟨?_, ?_, ?_, ?_, ?_⟩
  · intro h
    have hv : v ≠ [] := by
      rcases h with ⟨g, hg, _⟩
      exact List.ne_nil_of_mem hg
    simp only [check_synonym_list, if_neg hv]
    exact check_groups_short h
  · intro h
    simp only [check_synonym_list, if_pos h]
  · intro h
    have hv : v ≠ [] := by
      rcases h with ⟨g, hg, _⟩
      exact List.ne_nil_of_mem hg
    simp only [check_synonym_list, if_neg hv]
    exact check_groups_empty_term h
  · rintro gs1 g gs2 rfl hok hshort
    have hv : gs1 ++ g :: gs2 ≠ [] := by simp
    simp only [check_synonym_list, if_neg hv]
    refine check_groups_first_error gs2 hok ?_
    simp only [check_group, if_pos (show ¬ 1 < g.length by omega)]
  · rintro gs1 g gs2 rfl hok hlen ht
    have hv : gs1 ++ g :: gs2 ≠ [] := by simp
    simp only [check_synonym_list, if_neg hv]
    refine check_groups_first_error gs2 hok ?_
    have hany : g.any (fun t => t.isEmpty) = true := by
      rcases ht with ⟨t, htm, hte⟩
      subst hte
      exact List.any_eq_true.mpr ⟨[], htm, by simp⟩
    simp only [check_group, if_neg (not_not.mpr hlen), if_pos hany]

/-- Witness for C5 amended at concrete group lists: rejection, the
cardinality error when the first failing group is short, and the term error
when the first failing group has an empty term. -/
theorem C5_group_rejection_witness :
    exceptOk (check_synonym_list [[String.toList "a"]]) = false ∧
    check_synonym_list [] = Except.error VErr.emptySynonymList ∧
    exceptOk (check_synonym_list [[String.toList "a", String.toList ""]])
      = false ∧
    check_synonym_list [[String.toList "a", String.toList "b"],
        [String.toList "x"]]
      = Except.error VErr.shortSubList ∧
    check_synonym_list [[String.toList "a", String.toList ""],
        [String.toList "x"]]
      = Except.error VErr.emptyElement :=
  ⟨(C5_group_rejection _).1 (by decide),
   (C5_group_rejection _).2.1 rfl,
   (C5_group_rejection _).2.2.1 (by decide),
   (C5_group_rejection _).2.2.2.1 [[String.toList "a", String.toList "b"]]
     [String.toList "x"] [] rfl
     (by
       intro g hg
       simp only [List.mem_singleton] at hg
       subst hg
       rfl)
     (by decide),
   (C5_group_rejection _).2.2.2.2 [] [String.toList "a", String.toList ""]
     [[String.toList "x"]] rfl
     (by
       intro g hg
       exact absurd hg (List.not_mem_nil g))
     (by decide) ⟨[], by decide, rfl⟩⟩

/-- Claim C8: attaching a map name to an association list that does not
contain it, then detaching it, restores the original list. -/
theorem C8_attach_detach_roundtrip (L : List (List Char)) (m : List Char)
    (h : m ∉ L) : planDetachField m (planAttachField m L) = L := by
  unfold planAttachField planDetachField
  induction L with
  | nil => simp
  | cons x L ih =>
    have hx : x ≠ m := fun he => h (he ▸ List.mem_cons_self x L)
    have hL : m ∉ L := fun hm => h (List.mem_cons_of_mem x hm)
    rw [List.cons_append, List.erase_cons, if_neg (by simp [hx]), ih hL]

/-- Witness for C8 at a concrete association list. -/
theorem C8_attach_detach_roundtrip_witness :
    planDetachField (String.toList "m1")
        (planAttachField (String.toList "m1")
          [String.toList "a", String.toList "b"])
      = [String.toList "a", String.toList "b"] :=
  C8_attach_detach_roundtrip _ _ (by decide)

lemma fieldErrors_indexName_eq_nil (gw : GW) (v : List Char) :
    fieldErrors_indexName gw v = [] ↔ ∃ ix, lookupIndex gw v = some ix := by
  cases h : lookupIndex gw v <;> simp [fieldErrors_indexName, h]

lemma fieldErrors_mapName_eq_nil (v : List Char) :
    fieldErrors_mapName v = [] ↔
      (1 ≤ v.length ∧ v.length ≤ 10) ∧ pyLower v = v := by
  unfold fieldErrors_mapName
  by_cases h1 : ¬ (1 ≤ v.length ∧ v.length ≤ 10)
  · rw [if_pos h1]
    simp only [List.cons_ne_nil, false_iff]
    tauto
  · rw [if_neg h1]
    push_neg at h1
    by_cases h2 : pyLower v ≠ v
    · rw [if_pos h2]
      simp only [List.cons_ne_nil, false_iff]
      tauto
    · rw [if_neg h2]
      push_neg at h2
      simp [h1, h2]

lemma fieldErrors_synonymList_eq_nil (v : List (List (List Char))) :
    fieldErrors_synonymList v = [] ↔
      check_synonym_list v = Except.ok () := by
  cases h : check_synonym_list v with
  | ok u =>
    cases u
    simp [fieldErrors_synonymList, h]
  | error e => simp [fieldErrors_synonymList, h]

/-- Counterexample to claim C3 as stated: on a request whose mapName is
uppercase and whose indexName does not resolve, validation reports both
errors together; the first failing rule does not abort validation and its
error is not the only one reported. -/
theorem C3_counterexample :
    validateSynonymData ⟨[], []⟩ (String.toList "idx") (String.toList "ABC")
        [[String.toList "a", String.toList "b"]]
      = [VErr.indexNotFound, VErr.mapNameNotLowercase] ∧
    VErr.indexNotFound ≠ VErr.mapNameNotLowercase :=
  ⟨rfl, by decide⟩

/-- Claim C3 amended: validation is per-field with error aggregation:
every field is validated independently and all field errors are reported
together, in field-declaration order indexName, mapName, synonymList; a
failing field does not stop the validation of the other fields. Checks
short-circuit only inside a field: the mapName length constraint runs
before the lowercase check (and, for update, before the map resolution),
the group list must be non-empty, and the groups are checked in order,
aborting at the first offending group, its cardinality before its terms. -/
theorem C3_validation_order (gw : GW) (iN mN : List Char)
    (sL : List (List (List Char))) :
    (validateSynonymData gw iN mN sL = [] ↔
      ((∃ ix, lookupIndex gw iN = some ix) ∧
        (1 ≤ mN.length ∧ mN.length ≤ 10) ∧ pyLower mN = mN ∧
        check_synonym_list sL = Except.ok ())) ∧
    (lookupIndex gw iN = none →
      ∀ mN' sL', VErr.indexNotFound ∈ validateSynonymData gw iN mN' sL' ∧
        VErr.indexNotFound ∈ validateUpdatedSynonymData gw iN mN' sL') ∧
    (¬ (1 ≤ mN.length ∧ mN.length ≤ 10) →
      fieldErrors_mapName mN = [VErr.mapNameLength] ∧
      ∀ iN' sL', VErr.mapNameLength ∈ validateSynonymData gw iN' mN sL') ∧
    ((1 ≤ mN.length ∧ mN.length ≤ 10) → pyLower mN ≠ mN →
      fieldErrors_mapName mN = [VErr.mapNameNotLowercase] ∧
      ∀ iN' sL', VErr.mapNameNotLowercase ∈ validateSynonymData gw iN' mN sL') ∧
    ((1 ≤ mN.length ∧ mN.length ≤ 10) → pyLower mN = mN →
      lookupMap gw mN = none →
      fieldErrors_mapName_update gw mN = [VErr.mapNotFound] ∧
      ∀ iN' sL', VErr.mapNotFound ∈ validateUpdatedSynonymData gw iN' mN sL') ∧
    (sL = [] → fieldErrors_synonymList sL = [VErr.emptySynonymList]) ∧
    (∀ gs1 g gs2 e, sL = gs1 ++ g :: gs2 →
      (∀ g' ∈ gs1, check_group g' = Except.ok ()) →
      check_group g = Except.error e →
      fieldErrors_synonymList sL = [e]) ∧
    (∀ g : List (List Char), ¬ 1 < g.length →
      check_group g = Except.error VErr.shortSubList) ∧
    (∀ g : List (List Char), 1 < g.length → (∃ t ∈ g, t = []) →
      check_group g = Except.error VErr.emptyElement) := by
  refine ⟨?_, ?_, ?_, ?_, ?_, ?_, ?_, ?_, ?_⟩
  · simp only [validateSynonymData, List.append_eq_nil,
      fieldErrors_indexName_eq_nil, fieldErrors_mapName_eq_nil,
      fieldErrors_synonymList_eq_nil]
    tauto
  · intro h mN' sL'
    constructor <;>
      simp [validateSynonymData, validateUpdatedSynonymData,
        fieldErrors_indexName, h]
  · intro hlen
    have hf : fieldErrors_mapName mN = [VErr.mapNameLength] := by
      simp only [fieldErrors_mapName, if_pos hlen]
    refine ⟨hf, ?_⟩
    intro iN' sL'
    simp [validateSynonymData, hf]
  · intro hlen hlow
    have hf : fieldErrors_mapName mN = [VErr.mapNameNotLowercase] := by
      simp only [fieldErrors_mapName, if_neg (not_not.mpr hlen), if_pos hlow]
    refine ⟨hf, ?_⟩
    intro iN' sL'
    simp [validateSynonymData, hf]
  · intro hlen hlow hmap
    have hf : fieldErrors_mapName_update gw mN = [VErr.mapNotFound] := by
      have hnn : ¬ (pyLower mN ≠ mN) := fun hc => hc hlow
      simp only [fieldErrors_mapName_update, if_neg (not_not.mpr hlen),
        if_neg hnn, hmap]
    refine ⟨hf, ?_⟩
    intro iN' sL'
    simp [validateUpdatedSynonymData, hf]
  · intro h
    subst h
    simp [fieldErrors_synonymList, check_synonym_list]
  · rintro gs1 g gs2 e rfl hok herr
    have hne : gs1 ++ g :: gs2 ≠ [] := by simp
    have hcs : check_synonym_list (gs1 ++ g :: gs2) = Except.error e := by
      simp only [check_synonym_list, if_neg hne]
      exact check_groups_first_error gs2 hok herr
    simp [fieldErrors_synonymList, hcs]
  · intro g hg
    simp only [check_group, if_pos hg]
  · intro g hg ht
    have hany : g.any (fun t => t.isEmpty) = true := by
      rcases ht with ⟨t, htm, hte⟩
      subst hte
      exact List.any_eq_true.mpr ⟨[], htm, by simp⟩
    simp only [check_group, if_neg (not_not.mpr hg), if_pos hany]

/-- Witness for C3 amended: concrete requests exercising acceptance, the
aggregation of errors of independent fields, and each in-field rule. -/
theorem C3_validation_order_witness :
    validateSynonymData ⟨[⟨String.toList "idx", []⟩], []⟩
        (String.toList "idx") (String.toList "m")
        [[String.toList "a", String.toList "b"]] = [] ∧
    VErr.indexNotFound ∈
      validateSynonymData ⟨[], []⟩ (String.toList "idx")
        (String.toList "ABC") [] ∧
    VErr.mapNameLength ∈
      validateSynonymData ⟨[], []⟩ (String.toList "idx")
        (String.toList "averylongmapname") [] ∧
    VErr.mapNameNotLowercase ∈
      validateSynonymData ⟨[], []⟩ (String.toList "idx")
        (String.toList "ABC") [] ∧
    VErr.mapNotFound ∈
      validateUpdatedSynonymData ⟨[⟨String.toList "idx", []⟩], []⟩
        (String.toList "idx") (String.toList "m") [] ∧
    fieldErrors_synonymList ([] : List (List (List Char)))
      = [VErr.emptySynonymList] ∧
    fieldErrors_synonymList [[String.toList "a", String.toList "b"],
        [String.toList "x"]]
      = [VErr.shortSubList] ∧
    check_group [String.toList "x"] = Except.error VErr.shortSubList ∧
    check_group [String.toList "a", String.toList ""]
      = Except.error VErr.emptyElement :=
  ⟨(C3_validation_order ⟨[⟨String.toList "idx", []⟩], []⟩
      (String.toList "idx") (String.toList "m")
      [[String.toList "a", String.toList "b"]]).1.mpr
      ⟨⟨⟨String.toList "idx", []⟩, rfl⟩, by decide, by decide, rfl⟩,
   (((C3_validation_order ⟨[], []⟩ (String.toList "idx")
      (String.toList "m") []).2.1 rfl (String.toList "ABC") []).1),
   (((C3_validation_order ⟨[], []⟩ (String.toList "idx")
      (String.toList "averylongmapname") []).2.2.1 (by decide)).2
      (String.toList "idx") []),
   (((C3_validation_order ⟨[], []⟩ (String.toList "idx")
      (String.toList "ABC") []).2.2.2.1 (by decide) (by decide)).2
      (String.toList "idx") []),
   (((C3_validation_order ⟨[⟨String.toList "idx", []⟩], []⟩
      (String.toList "idx") (String.toList "m") []).2.2.2.2.1 (by decide)
      (by decide) rfl).2 (String.toList "idx") []),
   ((C3_validation_order ⟨[], []⟩ (String.toList "i") (String.toList "m")
      []).2.2.2.2.2.1 rfl),
   ((C3_validation_order ⟨[], []⟩ (String.toList "i") (String.toList "m")
      [[String.toList "a", String.toList "b"], [String.toList "x"]]
      ).2.2.2.2.2.2.1 [[String.toList "a", String.toList "b"]]
      [String.toList "x"] [] VErr.shortSubList rfl
      (by
        intro g hg
        simp only [List.mem_singleton] at hg
        subst hg
        rfl)
      rfl),
   ((C3_validation_order ⟨[], []⟩ (String.toList "i") (String.toList "m")
      []).2.2.2.2.2.2.2.1 [String.toList "x"] (by decide)),
   ((C3_validation_order ⟨[], []⟩ (String.toList "i") (String.toList "m")
      []).2.2.2.2.2.2.2.2 [String.toList "a", String.toList ""]
      (by decide) (by decide))⟩


lemma attachScan_noop {cfg mN : List Char} {fields : List SearchField}
    (h : ∀ f ∈ fields, f.name = cfg →
      ∃ ns, f.synonym_map_names = some ns ∧ mN ∈ ns) :
    attachScan cfg mN fields = Except.ok (fields, false) := by
  induction fields with
  | nil => rfl
  | cons f fs ih =>
    have ihr := ih (fun x hx hn => h x (List.mem_cons_of_mem f hx) hn)
    by_cases hf : f.name = cfg
    · rcases h f (List.mem_cons_self f fs) hf with ⟨ns, hns, hmem⟩
      simp only [attachScan, if_pos hf, hns, if_pos hmem, ihr]
    · simp only [attachScan, if_neg hf, ihr]

lemma attachScan_absent {cfg mN : List Char} {fields : List SearchField}
    (h : ∀ f ∈ fields, f.name = cfg →
      ∃ ns, f.synonym_map_names = some ns ∧ mN ∉ ns) :
    attachScan cfg mN fields
      = Except.ok
          (fields.map (fun f =>
            if f.name = cfg then
              { f with synonym_map_names :=
                  (f.synonym_map_names).map (fun ns => planAttachField mN ns) }
            else f),
           fields.any (fun f => f.name == cfg)) := by
  induction fields with
  | nil => rfl
  | cons f fs ih =>
    have ihr := ih (fun x hx hn => h x (List.mem_cons_of_mem f hx) hn)
    by_cases hf : f.name = cfg
    · rcases h f (List.mem_cons_self f fs) hf with ⟨ns, hns, hmem⟩
      simp only [attachScan, if_pos hf, hns, if_neg hmem, ihr,
        List.map_cons, List.any_cons]
      simp [hf, hns]
    · simp only [attachScan, if_neg hf, ihr, List.map_cons, List.any_cons]
      simp [hf]

lemma attachScan_none_field {cfg mN : List Char} {fields : List SearchField}
    (h : ∃ f ∈ fields, f.name = cfg ∧ f.synonym_map_names = none) :
    attachScan cfg mN fields = Except.error noneIterMsg := by
  induction fields with
  | nil =>
    rcases h with ⟨f, hf, _⟩
    exact absurd hf (List.not_mem_nil f)
  | cons f fs ih =>
    by_cases hf : f.name = cfg
    · cases hns : f.synonym_map_names with
      | none => simp only [attachScan, if_pos hf, hns]
      | some ns =>
        have htail : ∃ f' ∈ fs, f'.name = cfg ∧ f'.synonym_map_names = none := by
          rcases h with ⟨f0, hf0, hcfg0, hnone0⟩
          rcases List.mem_cons.mp hf0 with rfl | h0
          · rw [hns] at hnone0
            exact Option.noConfusion hnone0
          · exact ⟨f0, h0, hcfg0, hnone0⟩
        by_cases hmem : mN ∈ ns
        · simp only [attachScan, if_pos hf, hns, if_pos hmem, ih htail]
        · simp only [attachScan, if_neg hmem, if_pos hf, hns, ih htail]
    · have htail : ∃ f' ∈ fs, f'.name = cfg ∧ f'.synonym_map_names = none := by
        rcases h with ⟨f0, hf0, hcfg0, hnone0⟩
        rcases List.mem_cons.mp hf0 with rfl | h0
        · exact absurd hcfg0 hf
        · exact ⟨f0, h0, hcfg0, hnone0⟩
      simp only [attachScan, if_neg hf, ih htail]

lemma detachScan_noop {cfg mN : List Char} {fields : List SearchField}
    (h : ∀ f ∈ fields, f.name = cfg →
      ∀ ns, f.synonym_map_names = some ns → mN ∉ ns) :
    detachScan cfg mN fields = (fields, false) := by
  induction fields with
  | nil => rfl
  | cons f fs ih =>
    have ihr := ih (fun x hx hn => h x (List.mem_cons_of_mem f hx) hn)
    cases hns : f.synonym_map_names with
    | none => simp only [detachScan, ihr, hns]
    | some ns =>
      have hcond : ¬ (0 < ns.length ∧ f.name = cfg ∧ mN ∈ ns) := by
        rintro ⟨hpos, hcfg, hmem⟩
        exact h f (List.mem_cons_self f fs) hcfg ns hns hmem
      simp only [detachScan, ihr, hns, hcond, if_false, if_neg hcond]

lemma lookupMap_append_self (gw : GW) (mN : List Char)
    (ss : List (List Char)) (hnew : lookupMap gw mN = none) :
    List.find? (fun m => m.name == mN) (gw.maps ++ [⟨mN, ss⟩])
      = some ⟨mN, ss⟩ := by
  rw [List.find?_append]
  rw [lookupMap] at hnew
  rw [hnew]
  simp

/-- Claim C6: on create, when every configured field of the index already
holds the map name, the field lists are left as they are and no index-update
call happens; when the name is absent from them, it is appended at the end
of each configured field list and exactly one index-update call happens. -/
theorem C6_create_attach (cfg : List Char) (gw : GW) (iN mN : List Char)
    (sL : List (List (List Char))) (idx : SearchIndex)
    (hidx : lookupIndex gw iN = some idx)
    (hnew : lookupMap gw mN = none) :
    ((∀ f ∈ idx.fields, f.name = cfg →
        ∃ ns, f.synonym_map_names = some ns ∧ mN ∈ ns) →
      attachScan cfg mN idx.fields = Except.ok (idx.fields, false) ∧
      (createSynonymMapE cfg gw iN mN sL).gw.indexes = gw.indexes ∧
      updateIndexCalls (createSynonymMapE cfg gw iN mN sL).calls = 0 ∧
      (createSynonymMapE cfg gw iN mN sL).resp.code = 200) ∧
    ((∀ f ∈ idx.fields, f.name = cfg →
        ∃ ns, f.synonym_map_names = some ns ∧ mN ∉ ns) →
      (∃ f ∈ idx.fields, f.name = cfg) →
      attachScan cfg mN idx.fields
        = Except.ok
            (idx.fields.map (fun f =>
              if f.name = cfg then
                { f with synonym_map_names := (f.synonym_map_names).map (fun ns => planAttachField mN ns) }
              else f),
             true) ∧
      updateIndexCalls (createSynonymMapE cfg gw iN mN sL).calls = 1 ∧
      (createSynonymMapE cfg gw iN mN sL).resp.code = 200) := by
  constructor
  · intro h
    have hscan := @attachScan_noop cfg mN idx.fields h
    refine ⟨hscan, ?_, ?_, ?_⟩ <;>
      simp [createSynonymMapE, hidx, hnew, hscan, updateIndexCalls,
        isUpdateIndexCall]
  · intro h hex
    have hany : idx.fields.any (fun f => f.name == cfg) = true := by
      rcases hex with ⟨f, hf, hcfg⟩
      exact List.any_eq_true.mpr ⟨f, hf, by simp [hcfg]⟩
    have hscan := @attachScan_absent cfg mN idx.fields h
    rw [hany] at hscan
    refine ⟨hscan, ?_, ?_⟩ <;>
      simp [createSynonymMapE, hidx, hnew, hscan, updateIndexCalls,
        isUpdateIndexCall]

/-- Witness for C6: both branches exercised on one-field indexes. -/
theorem C6_create_attach_witness :
    updateIndexCalls
        (createSynonymMapE cfgW gwAttachedW idxNameW m1W []).calls = 0 ∧
    updateIndexCalls
        (createSynonymMapE cfgW gwAbsentW idxNameW m1W []).calls = 1 :=
  ⟨((C6_create_attach cfgW gwAttachedW idxNameW m1W [] idxAttachedW rfl
      rfl).1
      (by
        intro f hf hcfg
        simp only [idxAttachedW, List.mem_singleton] at hf
        subst hf
        exact ⟨[m1W], rfl, List.mem_singleton.mpr rfl⟩)).2.2.1,
   ((C6_create_attach cfgW gwAbsentW idxNameW m1W [] idxAbsentW rfl
      rfl).2
      (by
        intro f hf hcfg
        simp only [idxAbsentW, List.mem_singleton] at hf
        subst hf
        exact ⟨[m2W], rfl, by decide⟩)
      (by decide)).2.1⟩

/-- Claim C7: deleting a map that exists at the Gateway but is attached to
no configured field still performs the Gateway delete call, performs no
index-update call, and answers 200 with the not-found-in-index message. -/
theorem C7_delete_unattached (cfg : List Char) (gw : GW) (iN mN : List Char)
    (idx : SearchIndex) (m : SynMap)
    (hidx : lookupIndex gw iN = some idx)
    (hm : lookupMap gw mN = some m)
    (habs : ∀ f ∈ idx.fields, f.name = cfg →
      ∀ ns, f.synonym_map_names = some ns → mN ∉ ns) :
    GCall.deleteSynonymMap mN ∈ (deleteSynonymMapE cfg gw iN mN).calls ∧
    updateIndexCalls (deleteSynonymMapE cfg gw iN mN).calls = 0 ∧
    (deleteSynonymMapE cfg gw iN mN).resp.code = 200 ∧
    (deleteSynonymMapE cfg gw iN mN).resp.message = deleteNotFoundMsg iN := by
  have hscan := @detachScan_noop cfg mN idx.fields habs
  refine ⟨?_, ?_, ?_, ?_⟩ <;>
    simp [deleteSynonymMapE, hidx, hm, hscan, updateIndexCalls,
      isUpdateIndexCall]

/-- Witness for C7 on a one-field index whose field holds a different
map. -/
theorem C7_delete_unattached_witness :
    updateIndexCalls
        (deleteSynonymMapE cfgW gwDeleteW idxNameW m1W).calls = 0 ∧
    (deleteSynonymMapE cfgW gwDeleteW idxNameW m1W).resp.code = 200 :=
  ⟨(C7_delete_unattached cfgW gwDeleteW idxNameW m1W idxAbsentW ⟨m1W, []⟩
      rfl rfl
      (by
        intro f hf hcfg ns hns
        simp only [idxAbsentW, List.mem_singleton] at hf
        subst hf
        cases hns
        decide)).2.1,
   (C7_delete_unattached cfgW gwDeleteW idxNameW m1W idxAbsentW ⟨m1W, []⟩
      rfl rfl
      (by
        intro f hf hcfg ns hns
        simp only [idxAbsentW, List.mem_singleton] at hf
        subst hf
        cases hns
        decide)).2.2.1⟩

/-- Claim C10: when the configured field exists but its association list is
None, the create endpoint persists the synonym map at the Gateway and then
raises on the membership test, so a 500 envelope is returned while the map
stays created and no index update is performed: the operation is not
atomic. -/
theorem C10_create_not_atomic (cfg : List Char) (gw : GW) (iN mN : List Char)
    (sL : List (List (List Char))) (idx : SearchIndex)
    (hidx : lookupIndex gw iN = some idx)
    (hnew : lookupMap gw mN = none)
    (hnone : ∃ f ∈ idx.fields, f.name = cfg ∧ f.synonym_map_names = none) :
    (createSynonymMapE cfg gw iN mN sL).resp = err500 noneIterMsg ∧
    lookupMap (createSynonymMapE cfg gw iN mN sL).gw mN
      = some ⟨mN, encode sL⟩ ∧
    GCall.createSynonymMap mN (encode sL)
      ∈ (createSynonymMapE cfg gw iN mN sL).calls ∧
    updateIndexCalls (createSynonymMapE cfg gw iN mN sL).calls = 0 := by
  have hscan := @attachScan_none_field cfg mN idx.fields hnone
  have hfind : List.find? (fun m => m.name == mN) gw.maps = none := hnew
  refine ⟨?_, ?_, ?_, ?_⟩ <;>
    simp [createSynonymMapE, hidx, hnew, hfind, hscan, lookupMap,
      lookupMap_append_self gw mN (encode sL) hnew, updateIndexCalls,
      isUpdateIndexCall]

/-- Witness for C10: the map outlives the 500 answer. -/
theorem C10_create_not_atomic_witness :
    (createSynonymMapE cfgW gwNoneW idxNameW m1W
        [[String.toList "a", String.toList "b"]]).resp
      = err500 noneIterMsg ∧
    lookupMap
        (createSynonymMapE cfgW gwNoneW idxNameW m1W
          [[String.toList "a", String.toList "b"]]).gw m1W
      = some ⟨m1W, encode [[String.toList "a", String.toList "b"]]⟩ :=
  ⟨(C10_create_not_atomic cfgW gwNoneW idxNameW m1W
      [[String.toList "a", String.toList "b"]] idxNoneW rfl rfl
      ⟨⟨cfgW, none⟩, by simp [idxNoneW], rfl, rfl⟩).1,
   (C10_create_not_atomic cfgW gwNoneW idxNameW m1W
      [[String.toList "a", String.toList "b"]] idxNoneW rfl rfl
      ⟨⟨cfgW, none⟩, by simp [idxNoneW], rfl, rfl⟩).2.1⟩

lemma mem_foldl_collect (fields : List SearchField) (acc : List (List Char))
    (n : List Char) :
    n ∈ fields.foldl (fun a f => a ++ fieldMapNames f) acc ↔
      n ∈ acc ∨ ∃ f ∈ fields, n ∈ fieldMapNames f := by
  induction fields generalizing acc with
  | nil => simp
  | cons f fs ih =>
    simp only [List.foldl_cons, ih, List.mem_append, List.mem_cons]
    constructor
    · rintro ((h | h) | ⟨f', hf', hn⟩)
      · exact Or.inl h
      · exact Or.inr ⟨f, Or.inl rfl, h⟩
      · exact Or.inr ⟨f', Or.inr hf', hn⟩
    · rintro (h | ⟨f', hf' | hf', hn⟩)
      · exact Or.inl (Or.inl h)
      · subst hf'
        exact Or.inl (Or.inr hn)
      · exact Or.inr ⟨f', hf', hn⟩

lemma mem_fieldMapNames (f : SearchField) (n : List Char) :
    n ∈ fieldMapNames f ↔
      ∃ ns, f.synonym_map_names = some ns ∧ n ∈ ns := by
  cases hns : f.synonym_map_names with
  | none => simp [fieldMapNames, hns]
  | some ns =>
    by_cases hlen : 0 < ns.length
    · simp [fieldMapNames, hns, if_pos hlen]
    · have hnil : ns = [] := by
        cases ns with
        | nil => rfl
        | cons x xs => exact absurd (by simp) hlen
      subst hnil
      simp [fieldMapNames, hns]

lemma mem_collectNames (fields : List SearchField) (n : List Char) :
    n ∈ collectNames fields ↔
      ∃ f ∈ fields, ∃ ns, f.synonym_map_names = some ns ∧ n ∈ ns := by
  rw [collectNames, mem_foldl_collect]
  simp only [List.not_mem_nil, false_or, mem_fieldMapNames]

lemma mem_odGo (l : List (List Char)) (seen : List (List Char))
    (n : List Char) :
    n ∈ odGo seen l ↔ n ∈ l ∧ n ∉ seen := by
  induction l generalizing seen with
  | nil => simp [odGo]
  | cons x xs ih =>
    by_cases hx : x ∈ seen
    · rw [odGo, if_pos hx, ih]
      simp only [List.mem_cons]
      constructor
      · rintro ⟨h1, h2⟩
        exact ⟨Or.inr h1, h2⟩
      · rintro ⟨h1 | h1, h2⟩
        · subst h1
          exact absurd hx h2
        · exact ⟨h1, h2⟩
    · rw [odGo, if_neg hx]
      simp only [List.mem_cons, ih, List.mem_cons]
      constructor
      · rintro (rfl | ⟨h1, h2⟩)
        · exact ⟨Or.inl rfl, hx⟩
        · refine ⟨Or.inr h1, ?_⟩
          intro hs
          exact h2 (Or.inr hs)
      · rintro ⟨rfl | h1, h2⟩
        · exact Or.inl rfl
        · by_cases hxe : n = x
          · exact Or.inl hxe
          · exact Or.inr ⟨h1, by
              rintro (h | h)
              · exact hxe h
              · exact h2 h⟩

lemma nodup_odGo (l : List (List Char)) (seen : List (List Char)) :
    (odGo seen l).Nodup := by
  induction l generalizing seen with
  | nil => simp [odGo]
  | cons x xs ih =>
    by_cases hx : x ∈ seen
    · rw [odGo, if_pos hx]
      exact ih seen
    · rw [odGo, if_neg hx]
      refine List.Nodup.cons ?_ (ih (x :: seen))
      intro hmem
      exact ((mem_odGo xs (x :: seen) x).mp hmem).2 (List.mem_cons_self x seen)

lemma mem_odFromKeys (l : List (List Char)) (n : List Char) :
    n ∈ odFromKeys l ↔ n ∈ l := by
  rw [odFromKeys, mem_odGo]
  simp

lemma fetchMaps_names (gw : GW) (names : List (List Char))
    (ms : List SynMap) (h : fetchMaps gw names = Except.ok ms) :
    ms.map SynMap.name = names := by
  induction names generalizing ms with
  | nil =>
    cases h
    rfl
  | cons n ns ih =>
    rw [fetchMaps] at h
    cases hn : lookupMap gw n with
    | none =>
      rw [hn] at h
      exact Except.noConfusion h
    | some m =>
      rw [hn] at h
      cases hr : fetchMaps gw ns with
      | error e =>
        rw [hr] at h
        exact Except.noConfusion h
      | ok ms' =>
        rw [hr] at h
        cases h
        have hname : m.name = n := by
          have hb := List.find?_some hn
          exact beq_iff_eq.mp hb
        simp only [List.map_cons, hname, ih ms' hr]

lemma mkSynonymDataRecord_ok {gw : GW} {iN : List Char} {m : SynMap}
    {r : RespEntry} (h : mkSynonymDataRecord gw iN m = Except.ok r) :
    (1 ≤ m.name.length ∧ m.name.length ≤ 10) ∧ pyLower m.name = m.name := by
  unfold mkSynonymDataRecord at h
  by_cases h0 : (lookupIndex gw iN).isNone = true
  · rw [if_pos h0] at h
    exact Except.noConfusion h
  · rw [if_neg h0] at h
    by_cases h1 : ¬ (1 ≤ m.name.length ∧ m.name.length ≤ 10)
    · rw [if_pos h1] at h
      exact Except.noConfusion h
    · rw [if_neg h1] at h
      by_cases h2 : pyLower m.name ≠ m.name
      · rw [if_pos h2] at h
        exact Except.noConfusion h
      · push_neg at h1 h2
        exact ⟨h1, h2⟩

lemma mkRecords_ok {gw : GW} {iN : List Char} {idx : SearchIndex}
    (hidx : lookupIndex gw iN = some idx) {ms : List SynMap}
    (hval : ∀ m ∈ ms, (1 ≤ m.name.length ∧ m.name.length ≤ 10) ∧
      pyLower m.name = m.name) :
    mkRecords gw iN ms
      = Except.ok (ms.map (fun m => ⟨some iN, m.name, decode m.synonyms⟩)) := by
  induction ms with
  | nil => rfl
  | cons m ms ih =>
    rcases hval m (List.mem_cons_self m ms) with ⟨hlen, hlow⟩
    have hrec : mkSynonymDataRecord gw iN m
        = Except.ok ⟨some iN, m.name, decode m.synonyms⟩ := by
      unfold mkSynonymDataRecord
      rw [if_neg (by simp [hidx]), if_neg (not_not.mpr hlen),
        if_neg (fun hc => hc hlow)]
    simp only [mkRecords, hrec,
      ih (fun x hx => hval x (List.mem_cons_of_mem m hx)), List.map_cons]

lemma mkRecords_err {gw : GW} {iN : List Char} {ms : List SynMap}
    (h : ∃ m ∈ ms, ¬ ((1 ≤ m.name.length ∧ m.name.length ≤ 10) ∧
      pyLower m.name = m.name)) :
    ∃ e, mkRecords gw iN ms = Except.error e := by
  induction ms with
  | nil =>
    rcases h with ⟨m, hm, _⟩
    exact absurd hm (List.not_mem_nil m)
  | cons m ms ih =>
    cases hrec : mkSynonymDataRecord gw iN m with
    | error e => exact ⟨e, by simp only [mkRecords, hrec]⟩
    | ok r =>
      have hmv := mkSynonymDataRecord_ok hrec
      have htail : ∃ m' ∈ ms,
          ¬ ((1 ≤ m'.name.length ∧ m'.name.length ≤ 10) ∧
            pyLower m'.name = m'.name) := by
        rcases h with ⟨m0, hm0, hbad⟩
        rcases List.mem_cons.mp hm0 with rfl | hm0'
        · exact absurd hmv hbad
        · exact ⟨m0, hm0', hbad⟩
      rcases ih htail with ⟨e, he⟩
      exact ⟨e, by simp only [mkRecords, hrec, he]⟩

/-- Counterexample to claim C2 as stated: the list-by-index endpoint
collects the map names of every field, so m2, attached only to the field
named other and not to the configured field, still appears in the
response. -/
theorem C2_counterexample :
    (getByIndexE gwTwoFieldsW idxNameW).data.map RespEntry.mapName
      = [m1W, m2W] ∧
    idxTwoFieldsW.fields = [⟨cfgW, some [m1W]⟩, ⟨otherW, some [m2W]⟩] ∧
    cfgW ≠ otherW ∧
    m2W ∈ (getByIndexE gwTwoFieldsW idxNameW).data.map RespEntry.mapName :=
  ⟨rfl, rfl, by decide, by decide⟩

/-- Claim C2 amended: when every referenced map resolves and its name
passes the record validation re-run while building the response (length in
1..10 and lowercase), the list-by-index endpoint answers 200 with exactly
the map names referenced by any field of the index, deduplicated preserving
first-occurrence order, each record tagged with the queried index name;
when some referenced name fails that validation, the endpoint answers the
500 envelope instead. -/
theorem C2_list_by_index (gw : GW) (iN : List Char) (idx : SearchIndex)
    (ms : List SynMap)
    (hidx : lookupIndex gw iN = some idx)
    (hms : fetchMaps gw (odFromKeys (collectNames idx.fields))
      = Except.ok ms) :
    ((∀ m ∈ ms, (1 ≤ m.name.length ∧ m.name.length ≤ 10) ∧
        pyLower m.name = m.name) →
      (getByIndexE gw iN).code = 200 ∧
      (getByIndexE gw iN).data.map RespEntry.mapName
        = odFromKeys (collectNames idx.fields) ∧
      (∀ n, n ∈ (getByIndexE gw iN).data.map RespEntry.mapName ↔
        ∃ f ∈ idx.fields, ∃ ns, f.synonym_map_names = some ns ∧ n ∈ ns) ∧
      ((getByIndexE gw iN).data.map RespEntry.mapName).Nodup ∧
      (∀ r ∈ (getByIndexE gw iN).data, r.indexName = some iN)) ∧
    ((∃ m ∈ ms, ¬ ((1 ≤ m.name.length ∧ m.name.length ≤ 10) ∧
        pyLower m.name = m.name)) →
      ∃ e, getByIndexE gw iN = err500 e) := by
  constructor
  · intro hval
    have hresp : getByIndexE gw iN
        = { code := 200, message := successMsg,
            data := ms.map (fun m => ⟨some iN, m.name, decode m.synonyms⟩) } := by
      simp [getByIndexE, hidx, hms, mkRecords_ok hidx hval]
    have hnames : (getByIndexE gw iN).data.map RespEntry.mapName
        = odFromKeys (collectNames idx.fields) := by
      rw [hresp]
      simp only [List.map_map]
      exact fetchMaps_names gw _ ms hms
    refine ⟨by rw [hresp], hnames, ?_, ?_, ?_⟩
    · intro n
      rw [hnames, mem_odFromKeys, mem_collectNames]
    · rw [hnames, odFromKeys]
      exact nodup_odGo _ _
    · intro r hr
      rw [hresp] at hr
      simp only [List.mem_map] at hr
      rcases hr with ⟨m, _, rfl⟩
      rfl
  · intro hbad
    rcases @mkRecords_err gw iN ms hbad with ⟨e, he⟩
    exact ⟨e, by simp [getByIndexE, hidx, hms, he]⟩

/-- Witness for C2 amended on the two-field index with valid names. -/
theorem C2_list_by_index_witness :
    (getByIndexE gwTwoFieldsW idxNameW).code = 200 ∧
    ((getByIndexE gwTwoFieldsW idxNameW).data.map RespEntry.mapName).Nodup :=
  ⟨((C2_list_by_index gwTwoFieldsW idxNameW idxTwoFieldsW
      [⟨m1W, []⟩, ⟨m2W, []⟩] rfl rfl).1 (by decide)).1,
   ((C2_list_by_index gwTwoFieldsW idxNameW idxTwoFieldsW
      [⟨m1W, []⟩, ⟨m2W, []⟩] rfl rfl).1 (by decide)).2.2.2.1⟩

/-- Claim C9: every endpoint answer is either a 200-coded response or the
500 error envelope whose message is the stringified error and whose data is
empty; no other code is ever emitted and the data field is always
present. -/
theorem C9_envelope (cfg : List Char) (gw : GW) (iN mN : List Char)
    (sL : List (List (List Char))) :
    envelopeOk (getAllE gw) ∧
    envelopeOk (getByIndexE gw iN) ∧
    envelopeOk (createSynonymMapE cfg gw iN mN sL).resp ∧
    envelopeOk (deleteSynonymMapE cfg gw iN mN).resp ∧
    envelopeOk (updateSynonymMapE gw iN mN sL).resp := by
  refine ⟨?_, ?_, ?_, ?_, ?_⟩ <;>
    · simp only [envelopeOk, getAllE, getByIndexE, createSynonymMapE,
        deleteSynonymMapE, updateSynonymMapE]
      repeat' split
      all_goals
        first
          | exact Or.inl rfl
          | exact Or.inr ⟨_, rfl⟩

end SynApp
